import Mathlib

/-!
Verification of the Gigi render-graph interpreter (`IGigiInterpreter` and
`VariableStorage`, from the interpreter header) against its natural-language
specification.  The C++ is shallowly embedded: machine integers become
`Int`/`Nat` (with explicit `% 2^w` where unsigned wraparound matters), C
strings become `List Char`, the macro-generated per-node-kind dispatch becomes
a state-threading function over node indices, and fallible lookups become
`Option`.  IEEE `float` intermediates are idealized as exact arithmetic where
a claim depends on their value (noted at each definition).
-/

namespace Gigi

/-- A C string (no interior NUL bytes). -/
abbrev CStr := List Char

/-! ### Enumerations (from `gigicompiler.h` and the df_serialize schemas) -/

/-- `GigiCompileResult`: `OK`, `NotCompiledYet`, `InterpreterError`, plus the
structural-failure kinds produced by the external compiler (collapsed to one
representative constructor, `CompileError`; the interpreter only ever tests
against `OK`). -/
inductive GigiCompileResult
  | OK
  | NotCompiledYet
  | InterpreterError
  | CompileError
  deriving DecidableEq, Repr

/-- `NodeAction` (interpreter header, lines 17-21). -/
inductive NodeAction
  | Init
  | Execute
  deriving DecidableEq, Repr

/-- `SetVariableOperator` (the operators the `DoOp` switches handle). -/
inductive SetVariableOperator
  | Add
  | Subtract
  | Multiply
  | Divide
  | Modulo
  | BitwiseOr
  | BitwiseAnd
  | BitwiseXor
  | BitwiseNot
  | PowerOf2GE
  | Noop
  deriving DecidableEq, Repr

/-- `ConditionComparison`; `Count` is the unset sentinel tested by
`EvaluateCondition`. -/
inductive ConditionComparison
  | IsTrue
  | IsFalse
  | Equals
  | NotEquals
  | LT
  | LTE
  | GT
  | GTE
  | Count
  deriving DecidableEq, Repr

/-- `DataFieldType` (the closed schema list, visible in the `CallFor_*`
members of `VariableStorage`). -/
inductive DataFieldType
  | Int
  | Int2
  | Int3
  | Int4
  | Uint
  | Uint2
  | Uint3
  | Uint4
  | Float
  | Float2
  | Float3
  | Float4
  | Bool
  | Float4x4
  | Uint_16
  | Count
  deriving DecidableEq, Repr

/-- `DataFieldComponentType` (`_int`, `_uint16_t`, `_uint32_t`, `_float`,
plus the bool case handled separately); renamed `t*` for Lean. -/
inductive DataFieldComponentType
  | tInt
  | tUint16
  | tUint32
  | tFloat
  | tBool
  deriving DecidableEq, Repr

/-- `DataFieldTypeInfoStruct`: the fields the interpreter reads
(`componentType`, `componentCount`). -/
structure DataFieldTypeInfoStruct where
  componentType : DataFieldComponentType
  componentCount : Nat
  deriving DecidableEq, Repr

/-- `DataFieldTypeInfo`: component type and count for each `DataFieldType`. -/
def DataFieldTypeInfo : DataFieldType → DataFieldTypeInfoStruct
  | .Int => ⟨.tInt, 1⟩
  | .Int2 => ⟨.tInt, 2⟩
  | .Int3 => ⟨.tInt, 3⟩
  | .Int4 => ⟨.tInt, 4⟩
  | .Uint => ⟨.tUint32, 1⟩
  | .Uint2 => ⟨.tUint32, 2⟩
  | .Uint3 => ⟨.tUint32, 3⟩
  | .Uint4 => ⟨.tUint32, 4⟩
  | .Float => ⟨.tFloat, 1⟩
  | .Float2 => ⟨.tFloat, 2⟩
  | .Float3 => ⟨.tFloat, 3⟩
  | .Float4 => ⟨.tFloat, 4⟩
  | .Bool => ⟨.tBool, 1⟩
  | .Float4x4 => ⟨.tFloat, 16⟩
  | .Uint_16 => ⟨.tUint16, 1⟩
  | .Count => ⟨.tInt, 0⟩

/-! ### Character and string helpers -/

/-- The `ToLower` lambda of `StringBeginsWithCaseInsensitive` (lines 609-615):
ASCII `A`-`Z` map to `a`-`z`, everything else is unchanged.  `_stricmp`
lowers characters the same way on ASCII input. -/
def ToLower (c : Char) : Char :=
  if 'A' ≤ c ∧ c ≤ 'Z' then Char.ofNat (c.toNat - 'A'.toNat + 'a'.toNat) else c

/-- `StringBeginsWithCaseInsensitive(hayStack, needle)` (lines 604-626): walk
both strings while neither is exhausted, failing on a case-folded mismatch;
succeed exactly when the needle was consumed.  (The null-pointer guard has no
counterpart: the model has no null strings.) -/
def StringBeginsWithCaseInsensitive : CStr → CStr → Bool
  | _, [] => true
  | [], _ :: _ => false
  | h :: hs, n :: ns =>
    if ToLower h ≠ ToLower n then false else StringBeginsWithCaseInsensitive hs ns

/-- `!_stricmp(a, b)`: case-insensitive string equality. -/
def StrICmpEq (a b : CStr) : Bool :=
  a.map ToLower = b.map ToLower

/-! ### Decimal text (`sprintf "%u"` / `"%i"` and the literal parsers)

The bodies of `VariableStorage::SetFromString` / `GetAsString` are not part of
these sources (only the declarations at lines 39-43 and 71-75 are).  The
parsers below are modelled from the spec: literals are comma/space separated
decimal component lists parsed by type- and count-specific parsers (§4.1,
§4.3); the texture/buffer operand paths of `DoSetVarOperation` feed them text
produced by `sprintf "%u, %u, %u"` / `"%u"`. -/

/-- The decimal digit character for `d` (`'0' + d`). -/
def digitToChar (d : Nat) : Char := Char.ofNat (48 + d)

/-- `sprintf "%u"`: decimal rendering of an unsigned value. -/
def natToDecimal (n : Nat) : CStr :=
  if n = 0 then ['0'] else (Nat.digits 10 n).reverse.map digitToChar

/-- `sprintf "%i"`: decimal rendering of a signed value. -/
def intToDecimal (v : Int) : CStr :=
  if v < 0 then '-' :: natToDecimal (-v).toNat else natToDecimal v.toNat

/-- Is `c` a decimal digit? -/
def isDigitChar (c : Char) : Bool := '0' ≤ c && c ≤ '9'

/-- Numeric value of a digit character. -/
def digitVal (c : Char) : Nat := c.toNat - 48

/-- Accumulate the decimal value of a digit string (most significant first). -/
def decimalValue (l : CStr) : Nat :=
  l.foldl (fun a c => a * 10 + digitVal c) 0

/-- Modelled from the spec: parse one unsigned decimal token (`sscanf`-style:
read the leading run of digits). -/
def parseNatTok (t : CStr) : Nat :=
  decimalValue (t.takeWhile isDigitChar)

/-- Modelled from the spec: parse one signed decimal token. -/
def parseIntTok : CStr → Int
  | [] => 0
  | c :: rest => if c = '-' then -(parseNatTok rest : Int) else (parseNatTok (c :: rest) : Int)

/-- Is `c` a component separator (comma or blank)? -/
def isSepChar (c : Char) : Bool := c = ',' || c = ' '

/-- Split a literal into component tokens at commas/blanks (helper;
`acc` holds the current token reversed). -/
def splitTokensGo : CStr → CStr → List CStr
  | [], acc => if acc = [] then [] else [acc.reverse]
  | c :: rest, acc =>
    if isSepChar c then
      if acc = [] then splitTokensGo rest []
      else acc.reverse :: splitTokensGo rest []
    else splitTokensGo rest (c :: acc)

/-- Split a literal into its component tokens. -/
def splitTokens (s : CStr) : List CStr := splitTokensGo s []

/-- Modelled from the spec: `SetFromString(text, count, int*)` — parse `count`
signed components, missing components read as 0. -/
def setFromStringInt (text : CStr) (count : Nat) : List Int :=
  let toks := splitTokens text
  (List.range count).map fun i => ((toks.get? i).map parseIntTok).getD 0

/-- Modelled from the spec: `SetFromString(text, count, unsigned int*)` and the
`uint16_t` overload — parse `count` unsigned components. -/
def setFromStringUint (text : CStr) (count : Nat) : List Nat :=
  let toks := splitTokens text
  (List.range count).map fun i => ((toks.get? i).map parseNatTok).getD 0

/-- Modelled from the spec: parse one floating-point token as an exact decimal
(sign, integer part, optional fraction); IEEE rounding is idealized away. -/
def parseRatTok (t : CStr) : ℚ :=
  let sgn : ℚ := if t.headI = '-' then -1 else 1
  let t' := if t.headI = '-' then t.tail else t
  let ip := t'.takeWhile isDigitChar
  let rest := t'.drop ip.length
  let fp := if rest.headI = '.' then rest.tail.takeWhile isDigitChar else []
  sgn * ((decimalValue ip : ℚ) + (decimalValue fp : ℚ) / (10 : ℚ) ^ fp.length)

/-- Modelled from the spec: `SetFromString(text, count, float*)`. -/
def setFromStringFloat (text : CStr) (count : Nat) : List ℚ :=
  let toks := splitTokens text
  (List.range count).map fun i => ((toks.get? i).map parseRatTok).getD 0

/-- Modelled from the spec: parse one bool token (`true`/`false` labels or a
numeric value, nonzero meaning true). -/
def parseBoolTok (t : CStr) : Bool :=
  if StrICmpEq t ('t' :: 'r' :: 'u' :: 'e' :: []) then true
  else if StrICmpEq t ('f' :: 'a' :: 'l' :: 's' :: 'e' :: []) then false
  else parseIntTok t != 0

/-- Modelled from the spec: `SetFromString(text, count, bool*)`. -/
def setFromStringBool (text : CStr) (count : Nat) : List Bool :=
  let toks := splitTokens text
  (List.range count).map fun i => ((toks.get? i).map parseBoolTok).getD false

/-! ### `DoOp`: the typed arithmetic of `SetVariable` statements

The generic template (lines 351-381) is instantiated at `int`, `uint16_t` and
`uint32_t` by `ExecuteSetvar`; `float` and `bool` have explicit
specializations (lines 384-438).  The `PowerOf2GE` case computes
`(T)std::pow(2.0f, std::ceilf(std::log2(float(A))))` through `float`; its
model below keeps the IEEE-mandated part — the `float(A)` conversion rounds
to 24 significant bits, to nearest, ties to even — exact, and models the
downstream `log2f`/`ceilf`/`powf` as the exact `2 ^ ⌈log₂ ·⌉` of the
converted value (a doubling search).  `ceilf` is exact by IEEE and `powf` is
exact at these small integer exponents; `log2f` is not mandated to be
correctly rounded, and its output rounding makes the program's value
libm-defined at inputs whose true log₂ lies within about an ulp of an
integer (the first such integers are `2^21 + 1, 2^22 + 1, …`) — the theorems
below therefore assert the least-power-of-two property only on `A ≤ 2^20`,
where any `log2f` within 1 ulp yields the exact ceiling, and use the model
elsewhere only at exact powers of two, where every faithful `log2f` is
exact.  (`A = 0` has `log₂ 0 = -∞` and is outside the model; the claims only
concern positive `A`.) -/

/-- Doubling search: starting from the power of two `p`, return the first of
`p, 2p, 4p, …` that is `≥ A` (the fuel bounds the recursion). -/
def pow2geGo (A : Nat) : Nat → Nat → Nat
  | 0, p => p
  | fuel + 1, p => if A ≤ p then p else pow2geGo A fuel (2 * p)

/-- The least power of two `≥ A` (the exact value of `2 ^ ⌈log₂ A⌉` for
positive `A`). -/
def powerOf2GE (A : Nat) : Nat := pow2geGo A A 1

/-- Bit length of `n` (helper for the significand rounding below; the fuel
bounds the recursion so the kernel can evaluate it). -/
def bitLenGo : Nat → Nat → Nat
  | 0, _ => 0
  | fuel + 1, n => if n = 0 then 0 else bitLenGo fuel (n / 2) + 1

/-- Bit length of `n`. -/
def natBitLen (n : Nat) : Nat := bitLenGo n n

/-- `float(A)`: the IEEE-754 binary32 conversion of a nonnegative integer —
round to 24 significant bits, to nearest, ties to even (mandated by IEEE;
exact whenever `A ≤ 2^24`; 32-bit integers never exceed the exponent
range). -/
def floatOfNat (A : Nat) : Nat :=
  if A ≤ 2 ^ 24 then A
  else
    let s := natBitLen A - 24
    let q := A / 2 ^ s
    let r := A % 2 ^ s
    if 2 ^ (s - 1) < r ∨ (r = 2 ^ (s - 1) ∧ q % 2 = 1) then (q + 1) * 2 ^ s
    else q * 2 ^ s

/-- The integer instantiations' `PowerOf2GE` chain
`(T)std::pow(2.0f, std::ceilf(std::log2(float(A))))` (lines 371-377): the
mandated `float(A)` rounding, then the exact ceiling-power-of-two of the
converted value (see the section comment for where that downstream
idealization is and is not faithful). -/
def powerOf2GEChain (A : Nat) : Nat := powerOf2GE (floatOfNat A)

/-- `DoOp<T>` at `T = int` (all switch cases are handled, so the result is a
function of `A`, `B` and `op` alone).  Signed division and remainder are C
truncation (`Int.tdiv` / `Int.tmod`); `~A` is `-A - 1`; signed overflow is
undefined behaviour in C++, modeled as exact `Int` arithmetic. -/
def DoOpInt (A B : Int) (op : SetVariableOperator) : Int :=
  match op with
  | .Add => A + B
  | .Subtract => A - B
  | .Multiply => A * B
  | .Divide => if B ≠ 0 then Int.tdiv A B else 0
  | .Modulo => Int.tmod A B
  | .BitwiseOr => Int.lor A B
  | .BitwiseAnd => Int.land A B
  | .BitwiseXor => Int.xor A B
  | .BitwiseNot => -A - 1
  | .PowerOf2GE => (powerOf2GEChain A.toNat : Int)
  | .Noop => A

/-- `DoOp<T>` at the unsigned instantiations (`w = 16` for `uint16_t`,
`w = 32` for `uint32_t`): operands are values `< 2^w` and the wrapping ops
reduce mod `2^w`.  `A % 0` and the out-of-range `PowerOf2GE` float-to-int
cast are undefined behaviour in C++; the model keeps the mathematical value. -/
def DoOpUint (w : Nat) (A B : Nat) (op : SetVariableOperator) : Nat :=
  match op with
  | .Add => (A + B) % 2 ^ w
  | .Subtract => (A + (2 ^ w - B)) % 2 ^ w
  | .Multiply => (A * B) % 2 ^ w
  | .Divide => if B ≠ 0 then A / B else 0
  | .Modulo => A % B
  | .BitwiseOr => A ||| B
  | .BitwiseAnd => A &&& B
  | .BitwiseXor => A ^^^ B
  | .BitwiseNot => (2 ^ w - 1) - A
  | .PowerOf2GE => powerOf2GEChain A
  | .Noop => A

/-- The primitive float operations, abstract: the `float` specialization of
`DoOp` delegates to these without inspecting operands, so claims about its
shape hold for any IEEE (or idealized) interpretation `F`. -/
structure FloatOps (F : Type) where
  add : F → F → F
  sub : F → F → F
  mul : F → F → F
  div : F → F → F
  fmod : F → F → F
  pow2CeilLog2 : F → F

/-- `DoOp<float>` (lines 384-415): the bitwise cases are commented out in the
source, so those operators leave `dest` unmodified (`destOld`); `Divide` is
the raw float division with no zero guard. -/
def DoOpFloat {F : Type} (ops : FloatOps F) (A B destOld : F)
    (op : SetVariableOperator) : F :=
  match op with
  | .Add => ops.add A B
  | .Subtract => ops.sub A B
  | .Multiply => ops.mul A B
  | .Divide => ops.div A B
  | .Modulo => ops.fmod A B
  | .PowerOf2GE => ops.pow2CeilLog2 A
  | .Noop => A
  | _ => destOld

/-- `DoOp<bool>` (lines 418-438): only the bitwise cases and `Noop` exist;
arithmetic cases are commented out and leave `dest` unmodified. -/
def DoOpBool (A B destOld : Bool) (op : SetVariableOperator) : Bool :=
  match op with
  | .BitwiseOr => A || B
  | .BitwiseAnd => A && B
  | .BitwiseXor => xor A B
  | .BitwiseNot => !A
  | .Noop => A
  | _ => destOld

/-! ### `DoComparison` and enum label resolution -/

/-- `DoComparison<T>` (lines 587-602), generic over the scalar type: `zero`,
boolean equality and order tests are supplied per instantiation.  `GT`/`GTE`
are `A > B` / `A >= B`, i.e. the flipped order tests; an unset comparison
(`Count`) falls through the switch to `return false`. -/
def DoComparison {α : Type} (zero : α) (beq blt ble : α → α → Bool)
    (A B : α) (op : ConditionComparison) : Bool :=
  match op with
  | .IsTrue => !(beq A zero)
  | .IsFalse => beq A zero
  | .Equals => beq A B
  | .NotEquals => !(beq A B)
  | .LT => blt A B
  | .LTE => ble A B
  | .GT => blt B A
  | .GTE => ble B A
  | .Count => false

/-- The per-component AND reduction of `EvaluateConditionTyped` /
`EvaluateConditionTyped_Enum` (`ret = ret && DoComparison(A[i], B[i], op)`
for `i < componentCount`; out-of-range reads are unreachable and read
`zero`). -/
def compareAllComponents {α : Type} (zero : α) (beq blt ble : α → α → Bool)
    (A B : List α) (componentCount : Nat) (op : ConditionComparison) : Bool :=
  (List.range componentCount).all fun i =>
    DoComparison zero beq blt ble (A.getD i zero) (B.getD i zero) op

/-- One item of an `Enum` (the interpreter only reads its `label`). -/
structure EnumItem where
  label : CStr
  deriving DecidableEq, Repr

/-- An `Enum` of the render graph: the declared (original) name and the
ordered item list. -/
structure EnumDef where
  originalName : CStr
  items : List EnumItem
  deriving DecidableEq, Repr

/-- The item-scan loop of `EnumLabelToValue` (lines 639-643): index of the
first item whose label equals `lit` case-insensitively. -/
def findLabelIdx (lit : CStr) : List EnumItem → Option Nat
  | [] => none
  | it :: rest =>
    if StrICmpEq lit it.label then some 0 else (findLabelIdx lit rest).map (· + 1)

/-- The prefix-stripping step of `EnumLabelToValue` (lines 631-635): when the
label begins, case-insensitively, with `originalName ++ "::"`, skip that many
characters. -/
def stripEnumScope (e : EnumDef) (label : CStr) : CStr :=
  let enumScope := e.originalName ++ (':' :: ':' :: [])
  if StringBeginsWithCaseInsensitive label enumScope then label.drop enumScope.length
  else label

/-- `EnumLabelToValue(e, label)` (lines 628-645): strip an optional
`EnumName::` scope, then return the index of the first case-insensitively
matching item label, or `-1`. -/
def EnumLabelToValue (e : EnumDef) (label : CStr) : Int :=
  match findLabelIdx (stripEnumScope e label) e.items with
  | some i => (i : Int)
  | none => -1

/-- Reference definition of `EnumLabelToValue`, written from the spec's words
(§4.3): case-insensitive comparison is comparison of the case-folded strings;
"begins with the prefix case-insensitively" is folded-prefix equality; the
result is the first case-insensitive match among the item labels, else the
invalid-index sentinel `-1`. -/
def EnumLabelToValueRef (e : EnumDef) (label : CStr) : Int :=
  let scopeFolded := (e.originalName ++ (':' :: ':' :: [])).map ToLower
  let lit :=
    if (label.map ToLower).take scopeFolded.length = scopeFolded then
      label.drop scopeFolded.length
    else label
  match e.items.findIdx? (fun it => (lit.map ToLower) = (it.label.map ToLower)) with
  | some i => (i : Int)
  | none => -1

/-! ### Variables, conditions, and `EvaluateCondition` -/

/-- A render-graph `Variable`: the fields the interpreter reads. -/
structure VariableDef where
  name : CStr
  type : DataFieldType
  enumIndex : Int
  dflt : CStr
  deriving DecidableEq, Repr

/-- A `Condition` (§3): `variable1Index` / `variable2Index` are `-1` when
unset; `value2` is the literal used when variable2 is unset. -/
structure Condition where
  variable1Index : Int
  variable2Index : Int
  value2 : CStr
  comparison : ConditionComparison
  alwaysFalse : Bool
  deriving DecidableEq, Repr

/-- The typed current value of one runtime variable (the raw bytes of
`VariableStorage::Storage`, reinterpreted at the variable's component type;
floats idealized as exact rationals). -/
inductive VarValue
  | bools (l : List Bool)
  | ints (l : List Int)
  | uint16s (l : List Nat)
  | uints (l : List Nat)
  | floats (l : List ℚ)
  deriving DecidableEq, Repr

/-- Reinterpret stored bytes as `bool*` (a mismatched reinterpretation is
unreachable for compiler-validated graphs and reads as empty). -/
def VarValue.asBools : VarValue → List Bool
  | .bools l => l
  | _ => []

/-- Reinterpret stored bytes as `int*`. -/
def VarValue.asInts : VarValue → List Int
  | .ints l => l
  | _ => []

/-- Reinterpret stored bytes as `uint16_t*`. -/
def VarValue.asUint16s : VarValue → List Nat
  | .uint16s l => l
  | _ => []

/-- Reinterpret stored bytes as `uint32_t*`. -/
def VarValue.asUints : VarValue → List Nat
  | .uints l => l
  | _ => []

/-- Reinterpret stored bytes as `float*`. -/
def VarValue.asFloats : VarValue → List ℚ
  | .floats l => l
  | _ => []

/-- The parts of the `RenderGraph` the condition/set-variable engine reads
(`variables` is a reserved word in Lean, hence `variableList`). -/
structure RenderGraphModel where
  variableList : List VariableDef
  enums : List EnumDef
  deriving DecidableEq, Repr

/-- `m_runtimeVariables[i].storage.value` for each variable, positionally
(out-of-range indexes are unreachable and read as an empty int vector). -/
def readVar (store : List VarValue) (idx : Int) : VarValue :=
  store.getD idx.toNat (VarValue.ints [])

/-- `EvaluateConditionTyped<bool>`: B comes from variable2's bytes, or from
the parsed `value2` literal when variable2 is unset. -/
def EvaluateConditionTypedBool (store : List VarValue) (condition : Condition)
    (A : List Bool) (componentCount : Nat) : Bool :=
  let B := if condition.variable2Index ≠ -1 then (readVar store condition.variable2Index).asBools
           else setFromStringBool condition.value2 componentCount
  compareAllComponents false (· = ·) (fun a b => !a && b) (fun a b => !a || b)
    A B componentCount condition.comparison

/-- `EvaluateConditionTyped<int>`. -/
def EvaluateConditionTypedInt (store : List VarValue) (condition : Condition)
    (A : List Int) (componentCount : Nat) : Bool :=
  let B := if condition.variable2Index ≠ -1 then (readVar store condition.variable2Index).asInts
           else setFromStringInt condition.value2 componentCount
  compareAllComponents 0 (· = ·) (· < ·) (· ≤ ·) A B componentCount condition.comparison

/-- `EvaluateConditionTyped<uint16_t>` / `<uint32_t>` (same `Nat` model). -/
def EvaluateConditionTypedUint (store : List VarValue) (condition : Condition)
    (A : List Nat) (componentCount : Nat) : Bool :=
  let B := if condition.variable2Index ≠ -1 then (readVar store condition.variable2Index).asUints
           else setFromStringUint condition.value2 componentCount
  compareAllComponents 0 (· = ·) (· < ·) (· ≤ ·) A B componentCount condition.comparison

/-- `EvaluateConditionTyped<uint16_t>` reads through `asUint16s`. -/
def EvaluateConditionTypedUint16 (store : List VarValue) (condition : Condition)
    (A : List Nat) (componentCount : Nat) : Bool :=
  let B := if condition.variable2Index ≠ -1 then (readVar store condition.variable2Index).asUint16s
           else setFromStringUint condition.value2 componentCount
  compareAllComponents 0 (· = ·) (· < ·) (· ≤ ·) A B componentCount condition.comparison

/-- `EvaluateConditionTyped<float>` (exact-rational idealization). -/
def EvaluateConditionTypedFloat (store : List VarValue) (condition : Condition)
    (A : List ℚ) (componentCount : Nat) : Bool :=
  let B := if condition.variable2Index ≠ -1 then (readVar store condition.variable2Index).asFloats
           else setFromStringFloat condition.value2 componentCount
  compareAllComponents 0 (· = ·) (· < ·) (· ≤ ·) A B componentCount condition.comparison

/-- `EvaluateConditionTyped_Enum` (lines 647-662): B's component 0 is
`EnumLabelToValue` of the `value2` literal (the rest of the zero-initialized
B buffer stays 0). -/
def EvaluateConditionTypedEnum (g : RenderGraphModel) (condition : Condition)
    (A : List Int) (componentCount : Nat) (var1 : VariableDef) : Bool :=
  let e := (g.enums.get? var1.enumIndex.toNat).getD ⟨[], []⟩
  let B := [EnumLabelToValue e condition.value2]
  compareAllComponents 0 (· = ·) (· < ·) (· ≤ ·) A B componentCount condition.comparison

/-- `EvaluateCondition` (lines 687-735): `alwaysFalse` short-circuits to
false; an unset variable1 or unset comparison short-circuits to true;
otherwise dispatch on variable1's type, routing an enum-backed int compared
against a literal through enum-label resolution.  Unmatched cases fall
through to `return true`; an out-of-range variable1 index is unreachable for
compiler-validated graphs and is modeled as that same fall-through. -/
def EvaluateCondition (g : RenderGraphModel) (store : List VarValue)
    (condition : Condition) : Bool :=
  if condition.alwaysFalse then false
  else if condition.variable1Index = -1 ∨ condition.comparison = ConditionComparison.Count then true
  else
    match g.variableList.get? condition.variable1Index.toNat with
    | none => true
    | some var1 =>
      let typeInfo := DataFieldTypeInfo var1.type
      let Av := readVar store condition.variable1Index
      if var1.type = DataFieldType.Bool then
        EvaluateConditionTypedBool store condition Av.asBools typeInfo.componentCount
      else
        match typeInfo.componentType with
        | .tInt =>
          if var1.enumIndex ≠ -1 ∧ condition.variable2Index = -1 then
            EvaluateConditionTypedEnum g condition Av.asInts typeInfo.componentCount var1
          else
            EvaluateConditionTypedInt store condition Av.asInts typeInfo.componentCount
        | .tUint16 => EvaluateConditionTypedUint16 store condition Av.asUint16s typeInfo.componentCount
        | .tUint32 => EvaluateConditionTypedUint store condition Av.asUints typeInfo.componentCount
        | .tFloat => EvaluateConditionTypedFloat store condition Av.asFloats typeInfo.componentCount
        | .tBool => true

/-! ### `SetVariable` operand resolution (`ExecuteSetvar` / `DoSetVarOperation`) -/

/-- Per-kind texture runtime data: the fields `DoSetVarOperation` reads
(`m_size`, three resolved uint extents). -/
structure TextureRuntimeData where
  m_size : Nat × Nat × Nat
  deriving DecidableEq, Repr

/-- Per-kind buffer runtime data: the resolved element count `m_count`. -/
structure BufferRuntimeData where
  m_count : Nat
  deriving DecidableEq, Repr

/-- A variable reference of a `SetVariable` operand (`AVar`/`BVar`/
`destination`): `variableIndex = -1` when unbound. -/
structure VarRefModel where
  variableIndex : Int
  deriving DecidableEq, Repr

/-- A node reference of a `SetVariable` operand (`ANode`/`BNode`): the
texture/buffer node pointers, modeled by the bound node's name when
non-null. -/
structure NodeRefModel where
  textureNode : Option CStr
  bufferNode : Option CStr
  deriving DecidableEq, Repr

/-- `sprintf "%u, %u, %u"` of a texture's resolved size. -/
def formatUint3 (s : Nat × Nat × Nat) : CStr :=
  natToDecimal s.1 ++ (',' :: ' ' :: []) ++ natToDecimal s.2.1
    ++ (',' :: ' ' :: []) ++ natToDecimal s.2.2

/-- `ExecuteSetvar` (lines 538-555), per operand: the initial operand bytes
are the bound variable's storage when `variableIndex != -1`, otherwise a
zero-filled stack buffer. -/
def operandInitBytes {α : Type} (varStore : Int → List α) (zeroBuf : List α)
    (varRef : VarRefModel) : List α :=
  if varRef.variableIndex ≠ -1 then varStore varRef.variableIndex else zeroBuf

/-- The operand-resolution chain of `DoSetVarOperation` (lines 452-507, the
`A` chain; the `B` chain at lines 482-507 is textually identical), generic
over the instantiation type `α` exactly as the template is over `T`:
if a texture node is bound, the operand is re-pointed at a fresh buffer
parsed from `sprintf "%u, %u, %u"` of the texture's resolved size; else if a
buffer node is bound, at one component parsed from `sprintf "%u"` of its
resolved count; else, when no variable is bound, the literal is parsed over
`componentCount` components; otherwise the operand keeps the variable bytes
passed in by `ExecuteSetvar`.  Registries are `TupleCache`s whose
`GetOrCreate` default-constructs missing entries; they are modeled as total
maps from node name to data. -/
def resolveOperand {α : Type} (sfs : CStr → Nat → List α)
    (texReg : CStr → TextureRuntimeData) (bufReg : CStr → BufferRuntimeData)
    (nodeRef : NodeRefModel) (varRef : VarRefModel) (literal : CStr)
    (componentCount : Nat) (initBytes : List α) : List α :=
  match nodeRef.textureNode with
  | some nm => sfs (formatUint3 (texReg nm).m_size) 3
  | none =>
    match nodeRef.bufferNode with
    | some nm => sfs (natToDecimal (bufReg nm).m_count) 1
    | none =>
      if varRef.variableIndex = -1 then sfs literal componentCount
      else initBytes

/-- Reference definition of operand resolution, written from the spec's words
(§4.3 "first match wins"): (a) bound texture → its resolved size, a
3-component uint vector (converted to the operand type through the same text
path the code uses); (b) bound buffer → its resolved count, 1-component;
(c) bound variable → the variable's current stored bytes; (d) otherwise the
parsed literal. -/
def resolveOperandRef {α : Type} (sfs : CStr → Nat → List α)
    (texReg : CStr → TextureRuntimeData) (bufReg : CStr → BufferRuntimeData)
    (nodeRef : NodeRefModel) (varRef : VarRefModel) (literal : CStr)
    (componentCount : Nat) (varStore : Int → List α) : List α :=
  match nodeRef.textureNode with
  | some nm => sfs (formatUint3 (texReg nm).m_size) 3
  | none =>
    match nodeRef.bufferNode with
    | some nm => sfs (natToDecimal (bufReg nm).m_count) 1
    | none =>
      if varRef.variableIndex ≠ -1 then varStore varRef.variableIndex
      else sfs literal componentCount

/-! ### `SetRuntimeVariableFromString` -/

/-- `SetRuntimeVariableFromString` (lines 836-854), reduced to the text that
reaches `m_variableStorage.SetValueFromString`: for an enum-backed variable,
try `EnumLabelToValue` first and, when it resolves (`>= 0`), store the
`sprintf "%i"` rendering of the resolved index; otherwise (and for non-enum
variables) store the caller's text unchanged.  (The enum lookup itself is
`m_renderGraph.enums[variable->enumIndex]`; an out-of-range enum index is
unreachable for compiled graphs and falls through to the raw text.) -/
def setRuntimeVariableText (enums : List EnumDef) (var : VariableDef)
    (textValue : CStr) : CStr :=
  if var.enumIndex ≠ -1 then
    match enums.get? var.enumIndex.toNat with
    | some e =>
      let valueInt := EnumLabelToValue e textValue
      if 0 ≤ valueInt then intToDecimal valueInt else textValue
    | none => textValue
  else textValue

/-! ### The execution driver (`Compile` / `Execute`)

The macro-generated variant dispatch (`switch (node._index)` over the
schema's node kinds, lines 327-344 and 762-776) resolves, for each node of
`flattenedNodeList`, to one `OnNodeAction(node, runtimeData, action)` call.
The model abstracts one such call as `act : σ → Nat → Bool × σ` over the
whole mutable interpreter state `σ` (runtime data registries included) and
records the trace of node indices whose action ran. -/

/-- The node loop shared by `Compile` (Init) and `Execute` (Execute): run the
action on each listed node in order, stopping at the first failure.  Returns
(overall success, trace of nodes whose action ran, final state). -/
def runNodeActions {σ : Type} (act : σ → Nat → Bool × σ) :
    σ → List Nat → Bool × List Nat × σ
  | s, [] => (true, [], s)
  | s, n :: rest =>
    let r := act s n
    if r.1 then
      let r' := runNodeActions act r.2 rest
      (r'.1, n :: r'.2.1, r'.2.2)
    else (false, [n], r.2)

/-- The observable outcome of one `Execute()` call. -/
structure ExecOutcome (σ : Type) where
  retVal : Bool
  preBatchRan : Bool
  nodesRun : List Nat
  postBatchRan : Bool
  state : σ
  deriving DecidableEq, Repr

/-- `Execute()` (lines 751-782): no-op success unless compiled OK; else the
pre-phase `ExecuteSetVars(true)` batch, then the node loop (returning false
from inside the loop on the first failed node action), then the post-phase
`ExecuteSetVars(false)` batch and `return true`.  The two `SetVariable`
batches are abstracted as state transforms. -/
def ExecuteModel {σ : Type} (m_compileResult : GigiCompileResult)
    (flattenedNodeList : List Nat) (act : σ → Nat → Bool × σ)
    (setVarsPre setVarsPost : σ → σ) (s : σ) : ExecOutcome σ :=
  if m_compileResult ≠ GigiCompileResult.OK then ⟨true, false, [], false, s⟩
  else
    let s1 := setVarsPre s
    let r := runNodeActions act s1 flattenedNodeList
    if r.1 then ⟨true, true, r.2.1, true, setVarsPost r.2.2⟩
    else ⟨false, true, r.2.1, false, r.2.2⟩

/-- The observable outcome of one `Compile()` call: the returned status, the
trace of nodes whose Init action ran, the node index named by the error log
(if any), and the final state. -/
structure CompileOutcome (σ : Type) where
  result : GigiCompileResult
  initRun : List Nat
  errorLoggedNode : Option Nat
  state : σ
  deriving DecidableEq, Repr

/-- `Compile()` from the external-compile call on (lines 306-347): a non-OK
`GigiCompile` result is returned as is; otherwise `CreateVariableStorage`,
`OnCompileOK` and the per-kind runtime-data registry `Clear` calls run (in
code order, abstracted as `postCompileSetup`), then the Init node loop runs;
its first failure logs the failing node and returns `InterpreterError`,
otherwise the result is `OK`. -/
def CompileModel {σ : Type} (gigiCompileResult : GigiCompileResult)
    (flattenedNodeList : List Nat) (postCompileSetup : σ → σ)
    (act : σ → Nat → Bool × σ) (s : σ) : CompileOutcome σ :=
  if gigiCompileResult ≠ GigiCompileResult.OK then ⟨gigiCompileResult, [], none, s⟩
  else
    let s1 := postCompileSetup s
    let r := runNodeActions act s1 flattenedNodeList
    if r.1 then ⟨GigiCompileResult.OK, r.2.1, none, r.2.2⟩
    else ⟨GigiCompileResult.InterpreterError, r.2.1, r.2.1.getLast?, r.2.2⟩

/-! ### `Clear()` -/

/-- The interpreter's mutable members relevant to `Clear()`: the compile
result, the `VariableStorage` tuple cache (entries keyed by name and type),
the runtime-variable list, and the union of the macro-generated per-node-kind
`m_*_RuntimeData` registries (lines 942-949), modeled by their entry lists. -/
structure InterpreterStateModel (StorageEntry RtVar NodeRt : Type) where
  m_compileResult : GigiCompileResult
  m_variableStorage : List StorageEntry
  m_runtimeVariables : List RtVar
  nodeRuntimeData : List NodeRt
  deriving DecidableEq, Repr

/-- `Clear()` (lines 784-789): reset the compile result, clear the variable
storage cache and the runtime-variable list.  (No other member is touched.) -/
def ClearModel {A B C : Type} (s : InterpreterStateModel A B C) :
    InterpreterStateModel A B C :=
  { s with
    m_compileResult := GigiCompileResult.NotCompiledYet
    m_variableStorage := []
    m_runtimeVariables := [] }

/-! ## Theorems -/

/-- C4: `EvaluateCondition` returns false whenever `condition.alwaysFalse` is
set; otherwise it returns true whenever variable1 is unset
(`variable1Index == -1`) or the comparison operator is unset
(`comparison == Count`), regardless of every other field of the condition and
of the graph and variable state (vacuous-true law). -/
theorem evaluateCondition_vacuous_truth (g : RenderGraphModel)
    (store : List VarValue) (c : Condition) :
    (c.alwaysFalse = true → EvaluateCondition g store c = false) ∧
    (c.alwaysFalse = false →
      c.variable1Index = -1 ∨ c.comparison = ConditionComparison.Count →
      EvaluateCondition g store c = true) := by
  constructor
  · intro h
    simp [EvaluateCondition, h]
  · intro h h2
    simp only [EvaluateCondition, h, Bool.false_eq_true, if_false]
    rw [if_pos h2]

/-- Witness for C4 at a concrete condition: `alwaysFalse` unset, comparison
unset, variable1 bound, other fields arbitrary. -/
theorem evaluateCondition_vacuous_truth_witness :
    EvaluateCondition ⟨[], []⟩ []
      ⟨5, -1, ['x'], ConditionComparison.Count, false⟩ = true :=
  (evaluateCondition_vacuous_truth ⟨[], []⟩ []
      ⟨5, -1, ['x'], ConditionComparison.Count, false⟩).2 rfl (Or.inr rfl)

/-- C5: for every integer instantiation of `DoOp` (`int` exact, `uint16_t`
and `uint32_t` as the width-`w` unsigned model) the `Divide` operator is
guarded — a zero divisor yields 0, a nonzero divisor yields the C quotient —
while the float specialization's `Divide` is the unguarded raw float
division, whatever the underlying float interpretation. -/
theorem doOp_divide_guarded :
    (∀ A B : Int,
      (B = 0 → DoOpInt A B SetVariableOperator.Divide = 0) ∧
      (B ≠ 0 → DoOpInt A B SetVariableOperator.Divide = Int.tdiv A B)) ∧
    (∀ w A B : Nat,
      (B = 0 → DoOpUint w A B SetVariableOperator.Divide = 0) ∧
      (B ≠ 0 → DoOpUint w A B SetVariableOperator.Divide = A / B)) ∧
    (∀ (F : Type) (ops : FloatOps F) (A B destOld : F),
      DoOpFloat ops A B destOld SetVariableOperator.Divide = ops.div A B) := by
  refine ⟨fun A B => ⟨fun h => ?_, fun h => ?_⟩,
    fun w A B => ⟨fun h => ?_, fun h => ?_⟩, fun F ops A B destOld => rfl⟩ <;>
      simp [DoOpInt, DoOpUint, h]

/-- Witness for C5: division by zero yields 0 at `int` and `uint32_t`, and a
nonzero division evaluates to the C quotient at `uint16_t`. -/
theorem doOp_divide_guarded_witness :
    DoOpInt 7 0 SetVariableOperator.Divide = 0 ∧
    DoOpUint 32 9 0 SetVariableOperator.Divide = 0 ∧
    DoOpUint 16 9 2 SetVariableOperator.Divide = 4 :=
  ⟨(doOp_divide_guarded.1 7 0).1 rfl,
   (doOp_divide_guarded.2.1 32 9 0).1 rfl,
   by rw [(doOp_divide_guarded.2.1 16 9 2).2 (by decide)]⟩

/-- C8: composing the operand setup of `ExecuteSetvar` (variable bytes when a
variable is bound, else a zero buffer) with the override chain of
`DoSetVarOperation` yields exactly the spec's priority order: texture size,
then buffer count, then variable bytes, then parsed literal — first match
wins.  Stated for one operand; the `A` and `B` chains are textually identical
in the source, so this covers both. -/
theorem setVar_operand_resolution_priority {α : Type} (sfs : CStr → Nat → List α)
    (texReg : CStr → TextureRuntimeData) (bufReg : CStr → BufferRuntimeData)
    (nodeRef : NodeRefModel) (varRef : VarRefModel) (literal : CStr)
    (componentCount : Nat) (varStore : Int → List α) (zeroBuf : List α) :
    resolveOperand sfs texReg bufReg nodeRef varRef literal componentCount
        (operandInitBytes varStore zeroBuf varRef)
      = resolveOperandRef sfs texReg bufReg nodeRef varRef literal
          componentCount varStore := by
  cases htex : nodeRef.textureNode <;> cases hbuf : nodeRef.bufferNode <;>
    by_cases hv : varRef.variableIndex = -1 <;>
      simp [resolveOperand, resolveOperandRef, operandInitBytes, htex, hbuf, hv]

/-- C9 counterexample: `Clear()` does not clear the per-node-kind
runtime-data registries.  A state holding one registry entry keeps it across
`Clear()`, so the claim's "every per-node-kind runtime-data registry is
empty" part is false. -/
theorem clear_leaves_node_runtime_data :
    (ClearModel (⟨GigiCompileResult.OK, [], [], [0]⟩ :
        InterpreterStateModel Unit Unit Nat)).nodeRuntimeData ≠ [] := by
  decide

/-- C9 (amended): after `Clear()` the compile result is `NotCompiledYet` and
the typed variable storage map and the runtime-variable list are empty, but
the per-node-kind runtime-data registries are untouched (they are cleared by
the next `Compile`, lines 315-320, not by `Clear`). -/
theorem clear_resets_core_state {A B C : Type} (s : InterpreterStateModel A B C) :
    (ClearModel s).m_compileResult = GigiCompileResult.NotCompiledYet ∧
    (ClearModel s).m_variableStorage = [] ∧
    (ClearModel s).m_runtimeVariables = [] ∧
    (ClearModel s).nodeRuntimeData = s.nodeRuntimeData :=
  ⟨rfl, rfl, rfl, rfl⟩

/-- Helper: when the node loop succeeds, every listed node's action ran, in
list order. -/
theorem runNodeActions_success_trace {σ : Type} (act : σ → Nat → Bool × σ) :
    ∀ (l : List Nat) (s : σ), (runNodeActions act s l).1 = true →
      (runNodeActions act s l).2.1 = l := by
  intro l
  induction l with
  | nil => intro s _; rfl
  | cons n rest ih =>
    intro s h
    simp only [runNodeActions] at h ⊢
    by_cases hb : (act s n).1 = true
    · simp only [hb, if_true] at h ⊢
      exact congrArg (n :: ·) (ih _ h)
    · simp [hb] at h

/-- Helper: when the node loop fails, the trace of nodes whose action ran is
a nonempty prefix of the list — no later node's action runs. -/
theorem runNodeActions_fail_prefix {σ : Type} (act : σ → Nat → Bool × σ) :
    ∀ (l : List Nat) (s : σ), (runNodeActions act s l).1 = false →
      ∃ l2, l = (runNodeActions act s l).2.1 ++ l2 ∧
        (runNodeActions act s l).2.1 ≠ [] := by
  intro l
  induction l with
  | nil => intro s h; simp [runNodeActions] at h
  | cons n rest ih =>
    intro s h
    simp only [runNodeActions] at h ⊢
    by_cases hb : (act s n).1 = true
    · simp only [hb, if_true] at h ⊢
      obtain ⟨l2, hpre, hne⟩ := ih ((act s n).2) h
      exact ⟨l2, by simpa using hpre, by simp⟩
    · simp only [hb]
      simp only [Bool.not_eq_true] at hb
      simp only [hb, Bool.false_eq_true, if_false]
      exact ⟨rest, rfl, by simp⟩

/-- C1: `Execute()` behaves as the claim's reference definition.  When the
stored compile result is not `OK`, nothing runs and the call returns true.
Otherwise the pre-execution `SetVariable` batch runs first and the node loop
runs over the pre-batch state; if every node action succeeds, every node of
`flattenedNodeList` ran in list order, the post-execution batch runs and the
call returns true; if some node action fails, the call returns false, the
nodes that ran form a nonempty prefix of the list (no later node's action
runs), and the post-execution batch is skipped. -/
theorem execute_reference_behavior {σ : Type} (cr : GigiCompileResult)
    (fl : List Nat) (act : σ → Nat → Bool × σ) (setVarsPre setVarsPost : σ → σ)
    (s : σ) :
    (cr ≠ GigiCompileResult.OK →
      ExecuteModel cr fl act setVarsPre setVarsPost s = ⟨true, false, [], false, s⟩) ∧
    (cr = GigiCompileResult.OK →
      (∀ tr s2, runNodeActions act (setVarsPre s) fl = (true, tr, s2) →
        tr = fl ∧
        ExecuteModel cr fl act setVarsPre setVarsPost s
          = ⟨true, true, fl, true, setVarsPost s2⟩) ∧
      (∀ tr s2, runNodeActions act (setVarsPre s) fl = (false, tr, s2) →
        ExecuteModel cr fl act setVarsPre setVarsPost s
          = ⟨false, true, tr, false, s2⟩ ∧
        ∃ l2, fl = tr ++ l2 ∧ tr ≠ [])) := by
  constructor
  · intro h
    simp [ExecuteModel, h]
  · intro h
    subst h
    constructor
    · intro tr s2 hr
      have htr : tr = fl := by
        have := runNodeActions_success_trace act fl (setVarsPre s)
          (by rw [hr])
        rw [hr] at this
        exact this.symm ▸ this
      refine ⟨htr, ?_⟩
      simp [ExecuteModel, hr, htr]
    · intro tr s2 hr
      constructor
      · simp [ExecuteModel, hr]
      · have := runNodeActions_fail_prefix act fl (setVarsPre s) (by rw [hr])
        rw [hr] at this
        exact this

/-- Witness for C1: a non-OK compile result makes `Execute` a no-op success,
at a concrete state and action. -/
theorem execute_reference_behavior_witness :
    ExecuteModel GigiCompileResult.CompileError [0, 1]
        (fun (s : Nat) _ => (true, s + 1)) id id 0
      = ⟨true, false, [], false, 0⟩ :=
  (execute_reference_behavior GigiCompileResult.CompileError [0, 1]
      (fun (s : Nat) _ => (true, s + 1)) id id 0).1 (by decide)

/-- C2: after the external compile succeeds (and the post-compile setup —
variable storage creation and registry reset — runs), the Init action runs
for every node of `flattenedNodeList` in list order; a first failure makes
`Compile` log that node's identity and return `InterpreterError`, with no
subsequent node's Init action invoked; if every Init succeeds, `Compile`
returns `OK`. -/
theorem compile_init_short_circuit {σ : Type} (cr : GigiCompileResult)
    (fl : List Nat) (postCompileSetup : σ → σ) (act : σ → Nat → Bool × σ)
    (s : σ) :
    (cr ≠ GigiCompileResult.OK →
      CompileModel cr fl postCompileSetup act s = ⟨cr, [], none, s⟩) ∧
    (cr = GigiCompileResult.OK →
      (∀ tr s2, runNodeActions act (postCompileSetup s) fl = (true, tr, s2) →
        tr = fl ∧
        CompileModel cr fl postCompileSetup act s
          = ⟨GigiCompileResult.OK, fl, none, s2⟩) ∧
      (∀ tr s2, runNodeActions act (postCompileSetup s) fl = (false, tr, s2) →
        ∃ failing l1 l2, tr = l1 ++ [failing] ∧ fl = l1 ++ failing :: l2 ∧
          CompileModel cr fl postCompileSetup act s
            = ⟨GigiCompileResult.InterpreterError, tr, some failing, s2⟩)) := by
  constructor
  · intro h
    simp [CompileModel, h]
  · intro h
    subst h
    constructor
    · intro tr s2 hr
      have htr : tr = fl := by
        have := runNodeActions_success_trace act fl (postCompileSetup s)
          (by rw [hr])
        rw [hr] at this
        exact this.symm ▸ this
      refine ⟨htr, ?_⟩
      simp [CompileModel, hr, htr]
    · intro tr s2 hr
      have hpre := runNodeActions_fail_prefix act fl (postCompileSetup s)
        (by rw [hr])
      rw [hr] at hpre
      obtain ⟨l2, hfl, hne⟩ := hpre
      rcases List.eq_nil_or_concat tr with h0 | ⟨l1, failing, hconcat⟩
      · exact absurd h0 hne
      · refine ⟨failing, l1, l2, by simpa using hconcat, ?_, ?_⟩
        · rw [hfl, hconcat]
          simp [List.concat_eq_append]
        · simp only [CompileModel, ne_eq, not_true_eq_false, if_false, hr]
          rw [hconcat]
          simp [List.concat_eq_append, List.getLast?_concat]

/-- Witness for C2: a concrete three-node list whose middle node's Init
action fails: `Compile` returns `InterpreterError` naming node 1, and node
2's Init never runs. -/
theorem compile_init_short_circuit_witness :
    CompileModel GigiCompileResult.OK [0, 1, 2] id
        (fun (s : Nat) n => (decide (n ≠ 1), s)) 0
      = ⟨GigiCompileResult.InterpreterError, [0, 1], some 1, 0⟩ := by
  obtain ⟨failing, l1, l2, htr, hfl, heq⟩ :=
    ((compile_init_short_circuit GigiCompileResult.OK [0, 1, 2] id
        (fun (s : Nat) n => (decide (n ≠ 1), s)) 0).2 rfl).2 [0, 1] 0 (by decide)
  have h1 : ([0, 1] : List Nat).getLast? = some failing := by
    rw [htr]; exact List.getLast?_concat _
  have h2 : failing = 1 := by
    simp at h1; omega
  rw [h2] at heq
  exact heq

/-- Helper: the doubling search overshoots nothing it was given room for:
if `A ≤ 2^fuel * p` then the search result is ≥ `A`. -/
theorem pow2geGo_ge (A : Nat) :
    ∀ fuel p : Nat, A ≤ 2 ^ fuel * p → A ≤ pow2geGo A fuel p := by
  intro fuel
  induction fuel with
  | zero =>
    intro p h
    simpa [pow2geGo] using h
  | succ f ih =>
    intro p h
    simp only [pow2geGo]
    by_cases hb : A ≤ p
    · rw [if_pos hb]; exact hb
    · rw [if_neg hb]
      apply ih
      calc A ≤ 2 ^ (f + 1) * p := h
        _ = 2 ^ f * (2 * p) := by ring

/-- Helper: started at a power of two, the doubling search returns a power
of two. -/
theorem pow2geGo_is_pow (A : Nat) :
    ∀ fuel j : Nat, ∃ k, pow2geGo A fuel (2 ^ j) = 2 ^ k := by
  intro fuel
  induction fuel with
  | zero => intro j; exact ⟨j, rfl⟩
  | succ f ih =>
    intro j
    simp only [pow2geGo]
    by_cases hb : A ≤ 2 ^ j
    · rw [if_pos hb]; exact ⟨j, rfl⟩
    · rw [if_neg hb]
      rw [show 2 * 2 ^ j = 2 ^ (j + 1) by ring]
      exact ih (j + 1)

/-- Helper: the doubling search never passes a power of two that is already
`≥ A`. -/
theorem pow2geGo_min (A : Nat) :
    ∀ fuel j k : Nat, A ≤ 2 ^ k → 2 ^ j ≤ 2 ^ k →
      pow2geGo A fuel (2 ^ j) ≤ 2 ^ k := by
  intro fuel
  induction fuel with
  | zero =>
    intro j k _ h2
    simpa [pow2geGo] using h2
  | succ f ih =>
    intro j k hA h2
    simp only [pow2geGo]
    by_cases hb : A ≤ 2 ^ j
    · rw [if_pos hb]; exact h2
    · rw [if_neg hb]
      have hjk : j < k := by
        have h1 : (2 : Nat) ^ j < A := Nat.lt_of_not_le hb
        exact (Nat.pow_lt_pow_iff_right (by norm_num)).mp (lt_of_lt_of_le h1 hA)
      rw [show 2 * 2 ^ j = 2 ^ (j + 1) by ring]
      exact ih (j + 1) k hA (Nat.pow_le_pow_right (by norm_num) hjk)

/-- Helper: `powerOf2GE A` is the least power of two ≥ `A`. -/
theorem powerOf2GE_bounds (A : Nat) :
    A ≤ powerOf2GE A ∧ (∃ k, powerOf2GE A = 2 ^ k) ∧
      ∀ k, A ≤ 2 ^ k → powerOf2GE A ≤ 2 ^ k := by
  refine ⟨?_, ?_, ?_⟩
  · exact pow2geGo_ge A A 1 (by simpa using (Nat.lt_two_pow A).le)
  · simpa using pow2geGo_is_pow A A 0
  · intro k hk
    have := pow2geGo_min A A 0 k hk (Nat.one_le_two_pow)
    simpa using this

/-- C6 counterexample: the claim fails at the concrete input
`A = 2^24 + 1 = 16777217`.  The mandated `float(A)` conversion rounds
`16777217` to `16777216` (ties to even at 24 significant bits), so the
`uint32_t` instantiation stores `16777216 < A` — not the smallest power of
two ≥ `A` (which is `33554432`). -/
theorem powerOf2GE_false_at_16777217 :
    floatOfNat 16777217 = 16777216 ∧
    DoOpUint 32 16777217 0 SetVariableOperator.PowerOf2GE = 16777216 ∧
    (16777216 : Nat) < 16777217 :=
  ⟨by decide, by decide, by decide⟩

/-- C6 (amended): the integer instantiations store
`powerOf2GEChain A = 2 ^ ⌈log₂ float(A)⌉`, and for every positive
`A ≤ 2^20` — a range on which `float(A)` is exact and any `log2f` within
1 ulp yields the exact ceiling (it covers the whole `uint16_t` range) —
that value is the smallest power of two ≥ `A`; the float specialization
delegates the whole chain to the float implementation's
`pow(2, ceil(log2 ·))` primitive, whatever that interpretation is. -/
theorem doOp_powerOf2GE_least_small :
    (∀ w A B : Nat,
      DoOpUint w A B SetVariableOperator.PowerOf2GE = powerOf2GEChain A) ∧
    (∀ A B : Int,
      DoOpInt A B SetVariableOperator.PowerOf2GE = (powerOf2GEChain A.toNat : Int)) ∧
    (∀ A : Nat, 0 < A → A ≤ 2 ^ 20 →
      A ≤ powerOf2GEChain A ∧ (∃ k, powerOf2GEChain A = 2 ^ k) ∧
        ∀ k, A ≤ 2 ^ k → powerOf2GEChain A ≤ 2 ^ k) ∧
    (∀ (F : Type) (ops : FloatOps F) (A B destOld : F),
      DoOpFloat ops A B destOld SetVariableOperator.PowerOf2GE
        = ops.pow2CeilLog2 A) := by
  refine ⟨fun _ _ _ => rfl, fun _ _ => rfl, fun A hpos hsmall => ?_,
    fun _ _ _ _ _ => rfl⟩
  have hexact : powerOf2GEChain A = powerOf2GE A := by
    unfold powerOf2GEChain floatOfNat
    rw [if_pos (hsmall.trans (by norm_num))]
  rw [hexact]
  exact powerOf2GE_bounds A

/-- Witness for C6 (amended) at the spec's examples `1→1`, `5→8`, `8→8`,
`9→16`, with the least-power bounds discharged at `A = 5 ≤ 2^20`. -/
theorem doOp_powerOf2GE_least_small_witness :
    powerOf2GEChain 1 = 1 ∧ powerOf2GEChain 5 = 8 ∧ powerOf2GEChain 8 = 8 ∧
    powerOf2GEChain 9 = 16 ∧
    5 ≤ powerOf2GEChain 5 ∧ powerOf2GEChain 5 ≤ 2 ^ 3 :=
  ⟨by decide, by decide, by decide, by decide,
   (doOp_powerOf2GE_least_small.2.2.1 5 (by decide) (by decide)).1,
   (doOp_powerOf2GE_least_small.2.2.1 5 (by decide) (by decide)).2.2 3 (by decide)⟩

/-- Helper: the hand-rolled prefix walk of `StringBeginsWithCaseInsensitive`
is exactly case-folded prefix equality. -/
theorem stringBeginsWith_take (n : CStr) :
    ∀ h : CStr, StringBeginsWithCaseInsensitive h n = true ↔
      (h.map ToLower).take n.length = n.map ToLower := by
  induction n with
  | nil =>
    intro h
    simp [StringBeginsWithCaseInsensitive]
  | cons m ns ih =>
    intro h
    cases h with
    | nil => simp [StringBeginsWithCaseInsensitive]
    | cons c hs =>
      by_cases heq : ToLower c = ToLower m
      · simp [StringBeginsWithCaseInsensitive, heq, ih hs]
      · simp [StringBeginsWithCaseInsensitive, heq]

/-- Helper: the source's prefix-stripping agrees with the spec-worded one
(case-folded prefix comparison, then dropping the scope's length). -/
theorem stripEnumScope_eq_ref (e : EnumDef) (s : CStr) :
    stripEnumScope e s =
      (let scopeFolded := (e.originalName ++ (':' :: ':' :: [])).map ToLower
      if (s.map ToLower).take scopeFolded.length = scopeFolded then
        s.drop scopeFolded.length
      else s) := by
  simp only [stripEnumScope, List.length_map]
  by_cases hb : StringBeginsWithCaseInsensitive s (e.originalName ++ (':' :: ':' :: [])) = true
  · rw [if_pos hb, if_pos ((stringBeginsWith_take _ s).mp hb)]
  · rw [if_neg hb, if_neg (fun hc => hb ((stringBeginsWith_take _ s).mpr hc))]

/-- Helper: the source's item-scan loop is `List.findIdx?` of the
case-insensitive label match. -/
theorem findLabelIdx_eq_findIdx (lit : CStr) :
    ∀ items : List EnumItem,
      findLabelIdx lit items = items.findIdx? (fun it => StrICmpEq lit it.label) := by
  intro items
  induction items with
  | nil => rfl
  | cons it rest ih =>
    by_cases hmatch : StrICmpEq lit it.label = true
    · simp [findLabelIdx, List.findIdx?_cons, hmatch]
    · simp [findLabelIdx, List.findIdx?_cons, List.findIdx?_succ, hmatch, ih]

/-- Helper: first-match characterization of the item-scan loop: `none` means
no item matches; `some i` means item `i` matches and no earlier item does. -/
theorem findLabelIdx_first_match (lit : CStr) :
    ∀ items : List EnumItem,
      (findLabelIdx lit items = none ∧ ∀ it ∈ items, ¬ StrICmpEq lit it.label) ∨
      (∃ i : Nat, findLabelIdx lit items = some i ∧
        (∃ it', items.get? i = some it' ∧ StrICmpEq lit it'.label) ∧
        ∀ j, j < i → ∀ it', items.get? j = some it' → ¬ StrICmpEq lit it'.label) := by
  intro items
  induction items with
  | nil => exact Or.inl ⟨rfl, by simp⟩
  | cons it rest ih =>
    by_cases hmatch : StrICmpEq lit it.label = true
    · refine Or.inr ⟨0, ?_, ⟨it, rfl, hmatch⟩, by omega⟩
      simp [findLabelIdx, hmatch]
    · rcases ih with ⟨hnone, hall⟩ | ⟨i, heq, ⟨it', hget, hm⟩, hprev⟩
      · refine Or.inl ⟨?_, ?_⟩
        · simp [findLabelIdx, hmatch, hnone]
        · intro x hx
          rcases List.mem_cons.mp hx with h0 | h0
          · exact h0 ▸ hmatch
          · exact hall x h0
      · refine Or.inr ⟨i + 1, ?_, ⟨it', by simpa using hget, hm⟩, ?_⟩
        · simp [findLabelIdx, hmatch, heq]
        · intro j hj x hx
          cases j with
          | zero =>
            simp only [List.get?_cons_zero, Option.some.injEq] at hx
            exact hx ▸ hmatch
          | succ j' =>
            exact hprev j' (by omega) x (by simpa using hx)

/-- C7: `EnumLabelToValue(e, s)` equals the spec-worded reference definition
(case-folded prefix stripping of `EnumName::`, then case-insensitive label
matching), and it returns the index of the first case-insensitively matching
item of `e.items` — after stripping the optional scope — or the invalid-index
sentinel `-1` when no item matches. -/
theorem enumLabelToValue_first_match (e : EnumDef) (s : CStr) :
    EnumLabelToValue e s = EnumLabelToValueRef e s ∧
    ((EnumLabelToValue e s = -1 ∧
        ∀ it ∈ e.items, ¬ StrICmpEq (stripEnumScope e s) it.label) ∨
      (∃ i : Nat, EnumLabelToValue e s = (i : Int) ∧
        (∃ it', e.items.get? i = some it' ∧ StrICmpEq (stripEnumScope e s) it'.label) ∧
        ∀ j, j < i → ∀ it', e.items.get? j = some it' →
          ¬ StrICmpEq (stripEnumScope e s) it'.label)) := by
  constructor
  · show EnumLabelToValue e s = EnumLabelToValueRef e s
    unfold EnumLabelToValue EnumLabelToValueRef
    rw [findLabelIdx_eq_findIdx, stripEnumScope_eq_ref]
    rfl
  · rcases findLabelIdx_first_match (stripEnumScope e s) e.items with
      ⟨hnone, hall⟩ | ⟨i, heq, hmatch, hprev⟩
    · exact Or.inl ⟨by simp [EnumLabelToValue, hnone], hall⟩
    · exact Or.inr ⟨i, by simp [EnumLabelToValue, heq], hmatch, hprev⟩

/-- Witness for C7 at the spec's scenario: enum `ModeName` with items
`Slow`, `Fast`; by the claim theorem's refinement equality, the reference
resolution of the literal `"modename::FAST"` — differently-cased scope prefix
and label — agrees with the source's, which evaluates to index 1; the
unmatched label `"Missing"` yields `-1`. -/
theorem enumLabelToValue_first_match_witness :
    EnumLabelToValueRef
        ⟨['M', 'o', 'd', 'e', 'N', 'a', 'm', 'e'],
          [⟨['S', 'l', 'o', 'w']⟩, ⟨['F', 'a', 's', 't']⟩]⟩
        ['m', 'o', 'd', 'e', 'n', 'a', 'm', 'e', ':', ':', 'F', 'A', 'S', 'T'] = 1 ∧
    EnumLabelToValueRef
        ⟨['M', 'o', 'd', 'e', 'N', 'a', 'm', 'e'],
          [⟨['S', 'l', 'o', 'w']⟩, ⟨['F', 'a', 's', 't']⟩]⟩
        ['M', 'i', 's', 's', 'i', 'n', 'g'] = -1 := by
  constructor
  · rw [← (enumLabelToValue_first_match
        ⟨['M', 'o', 'd', 'e', 'N', 'a', 'm', 'e'],
          [⟨['S', 'l', 'o', 'w']⟩, ⟨['F', 'a', 's', 't']⟩]⟩
        ['m', 'o', 'd', 'e', 'n', 'a', 'm', 'e', ':', ':', 'F', 'A', 'S', 'T']).1]
    decide
  · rw [← (enumLabelToValue_first_match
        ⟨['M', 'o', 'd', 'e', 'N', 'a', 'm', 'e'],
          [⟨['S', 'l', 'o', 'w']⟩, ⟨['F', 'a', 's', 't']⟩]⟩
        ['M', 'i', 's', 's', 'i', 'n', 'g']).1]
    decide

/-- Helper: for a decimal digit `d`, its character round-trips through
`digitVal`, is a digit, is not a separator, and is not a minus sign. -/
theorem digitToChar_facts (d : Nat) (hd : d < 10) :
    digitVal (digitToChar d) = d ∧ isDigitChar (digitToChar d) = true ∧
      isSepChar (digitToChar d) = false ∧ digitToChar d ≠ '-' := by
  interval_cases d <;> exact ⟨by decide, by decide, by decide, by decide⟩

/-- Helper: `natToDecimal n` is a nonempty string of decimal digit
characters. -/
theorem natToDecimal_shape (n : Nat) :
    ∃ L : List Nat, (∀ d ∈ L, d < 10) ∧ natToDecimal n = L.map digitToChar ∧
      L ≠ [] := by
  by_cases h : n = 0
  · exact ⟨[0], by simp, by simp [h, natToDecimal]; rfl, by simp⟩
  · refine ⟨(Nat.digits 10 n).reverse, ?_, by simp [natToDecimal, h],
      by simp [List.reverse_eq_nil_iff, Nat.digits_ne_nil_iff_ne_zero, h]⟩
    intro d hd
    exact Nat.digits_lt_base (by norm_num) (List.mem_reverse.mp hd)

/-- Helper: folding decimal accumulation over big-endian digit characters
computes `Nat.ofDigits` of the little-endian digit list. -/
theorem decimalValue_fold (l : List Nat) (hl : ∀ d ∈ l, d < 10) :
    ∀ a : Nat,
      List.foldl (fun a c => a * 10 + digitVal c) a (l.reverse.map digitToChar)
        = a * 10 ^ l.length + Nat.ofDigits 10 l := by
  induction l with
  | nil => intro a; simp [Nat.ofDigits]
  | cons d t ih =>
    intro a
    have hd : d < 10 := hl d (by simp)
    have ht : ∀ x ∈ t, x < 10 := fun x hx => hl x (by simp [hx])
    rw [List.reverse_cons, List.map_append, List.foldl_append, ih ht a]
    simp only [List.map_cons, List.map_nil, List.foldl_cons, List.foldl_nil,
      (digitToChar_facts d hd).1, Nat.ofDigits_cons]
    rw [List.length_cons, pow_succ]
    ring

/-- Helper: parsing the decimal rendering of `n` recovers `n`. -/
theorem decimalValue_natToDecimal (n : Nat) : decimalValue (natToDecimal n) = n := by
  by_cases h : n = 0
  · subst h; decide
  · have hl : ∀ d ∈ Nat.digits 10 n, d < 10 :=
      fun d hd => Nat.digits_lt_base (by norm_num) hd
    calc decimalValue (natToDecimal n)
        = List.foldl (fun a c => a * 10 + digitVal c) 0
            ((Nat.digits 10 n).reverse.map digitToChar) := by
          simp [decimalValue, natToDecimal, h]
      _ = 0 * 10 ^ (Nat.digits 10 n).length + Nat.ofDigits 10 (Nat.digits 10 n) :=
          decimalValue_fold _ hl 0
      _ = n := by simp [Nat.ofDigits_digits]

/-- Helper: splitting a separator-free nonempty string yields that one
token. -/
theorem splitTokensGo_no_sep :
    ∀ l acc : CStr, (∀ c ∈ l, isSepChar c = false) → (acc ≠ [] ∨ l ≠ []) →
      splitTokensGo l acc = [acc.reverse ++ l] := by
  intro l
  induction l with
  | nil =>
    intro acc _ hne
    rcases hne with h | h
    · simp [splitTokensGo, h]
    · exact absurd rfl h
  | cons c rest ih =>
    intro acc hsep _
    have hc : isSepChar c = false := hsep c (by simp)
    simp only [splitTokensGo, hc, Bool.false_eq_true, if_false]
    rw [ih (c :: acc) (fun x hx => hsep x (by simp [hx])) (Or.inl (by simp))]
    simp

/-- Helper: `parseNatTok` inverts `natToDecimal`. -/
theorem parseNatTok_natToDecimal (n : Nat) : parseNatTok (natToDecimal n) = n := by
  obtain ⟨L, hL, hshape, _⟩ := natToDecimal_shape n
  have hall : ∀ c ∈ natToDecimal n, isDigitChar c = true := by
    intro c hc
    rw [hshape] at hc
    obtain ⟨d, hd, rfl⟩ := List.mem_map.mp hc
    exact (digitToChar_facts d (hL d hd)).2.1
  unfold parseNatTok
  rw [List.takeWhile_eq_self_iff.mpr hall]
  exact decimalValue_natToDecimal n

/-- Helper: parsing a nonnegative `sprintf "%i"` rendering as a
one-component int literal recovers the value (the enum path of
`SetRuntimeVariableFromString` depends on exactly this round trip). -/
theorem setFromStringInt_intToDecimal (v : Int) (hv : 0 ≤ v) :
    setFromStringInt (intToDecimal v) 1 = [v] := by
  have hdec : intToDecimal v = natToDecimal v.toNat := by
    unfold intToDecimal
    rw [if_neg (not_lt.mpr hv)]
  obtain ⟨L, hL, hshape, hLne⟩ := natToDecimal_shape v.toNat
  have hne : natToDecimal v.toNat ≠ [] := by
    rw [hshape]; simpa using hLne
  have hnosep : ∀ c ∈ natToDecimal v.toNat, isSepChar c = false := by
    intro c hc
    rw [hshape] at hc
    obtain ⟨d, hd, rfl⟩ := List.mem_map.mp hc
    exact (digitToChar_facts d (hL d hd)).2.2.1
  have hsplit : splitTokens (natToDecimal v.toNat) = [natToDecimal v.toNat] := by
    unfold splitTokens
    rw [splitTokensGo_no_sep _ [] hnosep (Or.inr hne)]
    rfl
  have hparse : parseIntTok (natToDecimal v.toNat) = v := by
    rcases hhead : natToDecimal v.toNat with _ | ⟨c, rest⟩
    · exact absurd hhead hne
    · have hcdig : isDigitChar c = true := by
        have : c ∈ natToDecimal v.toNat := by rw [hhead]; simp
        rw [hshape] at this
        obtain ⟨d, hd, hdc⟩ := List.mem_map.mp this
        rw [← hdc]
        exact (digitToChar_facts d (hL d hd)).2.1
      have hcne : c ≠ '-' := by
        have : c ∈ natToDecimal v.toNat := by rw [hhead]; simp
        rw [hshape] at this
        obtain ⟨d, hd, hdc⟩ := List.mem_map.mp this
        rw [← hdc]
        exact (digitToChar_facts d (hL d hd)).2.2.2
      simp only [parseIntTok, hcne, if_false]
      rw [← hhead, parseNatTok_natToDecimal]
      exact Int.toNat_of_nonneg hv
  rw [hdec]
  simp only [setFromStringInt, hsplit]
  rw [show List.range 1 = [0] from rfl]
  simp [hparse]

/-- C10: `SetRuntimeVariableFromString` on an enum-backed variable first
tries to resolve the text as an enum label (case-insensitively, optional
`EnumName::` scope) via `EnumLabelToValue`; a nonnegative resolution makes
the stored text the decimal rendering of that index — so the variable's
parsed current value is exactly that index — while a failed resolution, and
every non-enum variable, passes the caller's text to the string parser
unchanged. -/
theorem setRuntimeVariableFromString_enum_fallback (enums : List EnumDef)
    (var : VariableDef) (text : CStr) :
    (var.enumIndex = -1 → setRuntimeVariableText enums var text = text) ∧
    (∀ e, var.enumIndex ≠ -1 → enums.get? var.enumIndex.toNat = some e →
      (EnumLabelToValue e text < 0 → setRuntimeVariableText enums var text = text) ∧
      (0 ≤ EnumLabelToValue e text →
        setRuntimeVariableText enums var text = intToDecimal (EnumLabelToValue e text) ∧
        setFromStringInt (setRuntimeVariableText enums var text) 1
          = [EnumLabelToValue e text])) := by
  constructor
  · intro h
    simp [setRuntimeVariableText, h]
  · intro e hne hget
    have hget' : enums[var.enumIndex.toNat]? = some e := by
      rw [← List.get?_eq_getElem?]; exact hget
    constructor
    · intro hneg
      simp [setRuntimeVariableText, hne, hget', not_le.mpr hneg]
    · intro hpos
      have htext : setRuntimeVariableText enums var text
          = intToDecimal (EnumLabelToValue e text) := by
        simp [setRuntimeVariableText, hne, hget', hpos]
      exact ⟨htext, by rw [htext]; exact setFromStringInt_intToDecimal _ hpos⟩

/-- Witness for C10 at a concrete graph: enum `ModeName = {Slow, Fast}`, an
int variable backed by it; setting from text `"Fast"` stores the decimal
rendering of index 1, which parses back to value 1. -/
theorem setRuntimeVariableFromString_enum_fallback_witness :
    setRuntimeVariableText
        [⟨['M', 'o', 'd', 'e', 'N', 'a', 'm', 'e'],
          [⟨['S', 'l', 'o', 'w']⟩, ⟨['F', 'a', 's', 't']⟩]⟩]
        ⟨['m'], DataFieldType.Int, 0, ['0']⟩ ['F', 'a', 's', 't']
      = intToDecimal (EnumLabelToValue
          ⟨['M', 'o', 'd', 'e', 'N', 'a', 'm', 'e'],
            [⟨['S', 'l', 'o', 'w']⟩, ⟨['F', 'a', 's', 't']⟩]⟩ ['F', 'a', 's', 't']) ∧
    setFromStringInt
        (setRuntimeVariableText
          [⟨['M', 'o', 'd', 'e', 'N', 'a', 'm', 'e'],
            [⟨['S', 'l', 'o', 'w']⟩, ⟨['F', 'a', 's', 't']⟩]⟩]
          ⟨['m'], DataFieldType.Int, 0, ['0']⟩ ['F', 'a', 's', 't']) 1
      = [EnumLabelToValue
          ⟨['M', 'o', 'd', 'e', 'N', 'a', 'm', 'e'],
            [⟨['S', 'l', 'o', 'w']⟩, ⟨['F', 'a', 's', 't']⟩]⟩ ['F', 'a', 's', 't']] :=
  ((setRuntimeVariableFromString_enum_fallback
      [⟨['M', 'o', 'd', 'e', 'N', 'a', 'm', 'e'],
        [⟨['S', 'l', 'o', 'w']⟩, ⟨['F', 'a', 's', 't']⟩]⟩]
      ⟨['m'], DataFieldType.Int, 0, ['0']⟩ ['F', 'a', 's', 't']).2
    ⟨['M', 'o', 'd', 'e', 'N', 'a', 'm', 'e'],
      [⟨['S', 'l', 'o', 'w']⟩, ⟨['F', 'a', 's', 't']⟩]⟩
    (by decide) (by decide)).2 (by decide)

end Gigi
